import Mathlib

/-!
Verification of the request-construction and response-mapping layer of the
BunnyCDN JS storage client (`BunnyCDNStorage`):
path normalization, region-to-endpoint resolution, checksum computation for
uploads, the HTTP-status-to-error mapping, and the public operations that
compose them.  Strings are embedded as `String` / `List Char`; byte streams
as `List Nat`; the HTTP transport as an explicit response value passed in.
-/

namespace BunnyCDN

/-- JS `String.prototype.trim` removes leading and trailing whitespace;
we model the whitespace class with `Char.isWhitespace`. -/
def isSpace (c : Char) : Bool := c.isWhitespace

/-- Drop the longest suffix whose characters satisfy `p`. -/
def dropTrailing (p : Char → Bool) (l : List Char) : List Char :=
  (l.reverse.dropWhile p).reverse

/-- JS `path.trim()`. -/
def trimChars (l : List Char) : List Char :=
  dropTrailing isSpace (l.dropWhile isSpace)

/-- JS `path.replace(/\\/g, "/")`: every backslash becomes a forward slash. -/
def replaceBackslashes (l : List Char) : List Char :=
  l.map (fun c => if c = '\\' then '/' else c)

/-- JS `path.replace(/^\/+/, "")`: strip all leading forward slashes. -/
def stripLeadingSlashes (l : List Char) : List Char :=
  l.dropWhile (fun c => c == '/')

/-- JS `path.replace(/\/+/g, "/")`: collapse every run of consecutive
slashes into a single slash (drop a slash directly followed by a slash). -/
def collapseSlashes : List Char → List Char
  | [] => []
  | [c] => [c]
  | c :: d :: rest =>
    if c = '/' ∧ d = '/' then collapseSlashes (d :: rest)
    else c :: collapseSlashes (d :: rest)

/-- Whether the character list contains two consecutive slashes. -/
def hasDoubleSlash : List Char → Bool
  | [] => false
  | [_] => false
  | c :: d :: rest => (c == '/' && d == '/') || hasDoubleSlash (d :: rest)

/-- The cleanup pipeline of `#normalizePath` before the zone-prefix check:
`path.trim().replace(/\\/g, "/").replace(/^\/+/, "")`. -/
def cleanPath (l : List Char) : List Char :=
  stripLeadingSlashes (replaceBackslashes (trimChars l))

/-- The directory adjustment of `#normalizePath`:
`if (isDirectory) path = path.endsWith("/") ? path : path + "/"`. -/
def dirAdjust (isDirectory : Bool) (l : List Char) : List Char :=
  if isDirectory then (if l.getLast? = some '/' then l else l ++ ['/']) else l

/-- `BunnyCDNStorage.#normalizePath(path, isDirectory = false)`:
trim, replace backslashes, strip leading slashes, require the
`"{zoneName}/"` prefix (else throw), optionally force a trailing slash,
then collapse repeated slashes. -/
def normalizePath (storageZoneName : String) (path : String)
    (isDirectory : Bool := false) : Except String String :=
  let p := cleanPath path.data
  if (storageZoneName.data ++ ['/']).isPrefixOf p then
    .ok (String.mk (collapseSlashes (dirAdjust isDirectory p)))
  else
    .error ("Path validation failed. File path must begin with /" ++
      storageZoneName ++ "/.")

/-- JS `mainRegion.toLowerCase()` modelled with `Char.toLower`. -/
def lowerStr (s : String) : String := String.mk (s.data.map Char.toLower)

/-- `BunnyCDNStorage.#getBaseAddress(mainRegion)`: empty or
case-insensitive `"de"` selects the main endpoint, any other code is
interpolated verbatim into the regional endpoint. -/
def getBaseAddress (mainRegion : String) : String :=
  if mainRegion = "" ∨ lowerStr mainRegion = "de" then
    "https://storage.bunnycdn.com/"
  else
    "https://" ++ mainRegion ++ ".storage.bunnycdn.com/"

/-- `BunnyCDNStorage.#mapResponseToException(statusCode, path)`:
the `switch` over 404 / 400 / 401 / default, producing the thrown
error's message. -/
def mapResponseToException (storageZoneName : String) (statusCode : Nat)
    (path : String) : String :=
  if statusCode = 404 then "File not found: " ++ path
  else if statusCode = 400 then "Unable to upload file. Invalid path specified"
  else if statusCode = 401 then
    "Unauthorized access to storage zone: " ++ storageZoneName
  else "An unknown error has occurred during the request."

/-- The error selection of `upload`'s failure branch: a 400 status while a
(truthy) checksum is held raises `Checksum mismatch for {path}`; any other
failing status goes through `#mapResponseToException`. -/
def uploadHttpError (storageZoneName : String) (statusCode : Nat)
    (checksumHeld : Bool) (path : String) : String :=
  if statusCode = 400 ∧ checksumHeld = true then "Checksum mismatch for " ++ path
  else mapResponseToException storageZoneName statusCode path

/-- Whether `pat` occurs as a contiguous subsequence of `l`
(used to state that an error message "contains" a path or zone name). -/
def containsSeq (pat : List Char) : List Char → Bool
  | [] => pat.isEmpty
  | c :: rest => pat.isPrefixOf (c :: rest) || containsSeq pat rest

/-! ## SHA-256 (`crypto.createHash("sha256")` … `digest("hex")`)

The `Checksum.generate` helper feeds a byte stream into Node's SHA-256 and
returns the lowercase-hex digest.  We embed the stream as the list of bytes
it emits and implement SHA-256 (FIPS 180-4) over `Nat` with explicit
`% 2^32` reductions. -/

/-- Addition modulo `2^32`. -/
def add32 (a b : Nat) : Nat := (a + b) % 4294967296

/-- 32-bit right rotation (inputs below `2^32`). -/
def rotr (n x : Nat) : Nat := ((x >>> n) ||| (x <<< (32 - n))) % 4294967296

/-- SHA-256 big sigma-0. -/
def bsig0 (x : Nat) : Nat := (rotr 2 x) ^^^ (rotr 13 x) ^^^ (rotr 22 x)

/-- SHA-256 big sigma-1. -/
def bsig1 (x : Nat) : Nat := (rotr 6 x) ^^^ (rotr 11 x) ^^^ (rotr 25 x)

/-- SHA-256 small sigma-0. -/
def ssig0 (x : Nat) : Nat := (rotr 7 x) ^^^ (rotr 18 x) ^^^ (x >>> 3)

/-- SHA-256 small sigma-1. -/
def ssig1 (x : Nat) : Nat := (rotr 17 x) ^^^ (rotr 19 x) ^^^ (x >>> 10)

/-- SHA-256 choice function (`~x` as xor with `2^32 - 1`). -/
def chFn (x y z : Nat) : Nat := (x &&& y) ^^^ ((x ^^^ 4294967295) &&& z)

/-- SHA-256 majority function. -/
def majFn (x y z : Nat) : Nat := (x &&& y) ^^^ (x &&& z) ^^^ (y &&& z)

/-- The 64 SHA-256 round constants. -/
def sha256K : List Nat :=
  [1116352408, 1899447441, 3049323471, 3921009573, 961987163,
   1508970993, 2453635748, 2870763221, 3624381080, 310598401,
   607225278, 1426881987, 1925078388, 2162078206, 2614888103,
   3248222580, 3835390401, 4022224774, 264347078, 604807628,
   770255983, 1249150122, 1555081692, 1996064986, 2554220882,
   2821834349, 2952996808, 3210313671, 3336571891, 3584528711,
   113926993, 338241895, 666307205, 773529912, 1294757372,
   1396182291, 1695183700, 1986661051, 2177026350, 2456956037,
   2730485921, 2820302411, 3259730800, 3345764771, 3516065817,
   3600352804, 4094571909, 275423344, 430227734, 506948616,
   659060556, 883997877, 958139571, 1322822218, 1537002063,
   1747873779, 1955562222, 2024104815, 2227730452, 2361852424,
   2428436474, 2756734187, 3204031479, 3329325298]

/-- The SHA-256 initial hash state. -/
def sha256H0 : List Nat :=
  [1779033703, 3144134277, 1013904242, 2773480762, 1359893119,
   2600822924, 528734635, 1541459225]

/-- Group bytes into big-endian 32-bit words, four bytes at a time. -/
def toWords : List Nat → List Nat
  | a :: b :: c :: d :: rest => (((a * 256 + b) * 256 + c) * 256 + d) :: toWords rest
  | _ => []

/-- Big-endian bytes of a 32-bit word. -/
def wordBytes (w : Nat) : List Nat :=
  [(w >>> 24) % 256, (w >>> 16) % 256, (w >>> 8) % 256, w % 256]

/-- Big-endian 8-byte encoding of the message bit length. -/
def lenBytes8 (n : Nat) : List Nat :=
  [(n >>> 56) % 256, (n >>> 48) % 256, (n >>> 40) % 256, (n >>> 32) % 256,
   (n >>> 24) % 256, (n >>> 16) % 256, (n >>> 8) % 256, n % 256]

/-- SHA-256 padding: append `0x80`, zero bytes to 56 mod 64, then the
64-bit big-endian bit length. -/
def padMessage (msg : List Nat) : List Nat :=
  msg ++ 128 :: List.replicate ((119 - msg.length % 64) % 64) 0 ++
    lenBytes8 (8 * msg.length)

/-- Split a padded message into 64-byte chunks. -/
def toChunks (l : List Nat) : List (List Nat) :=
  if hl : l = [] then []
  else l.take 64 :: toChunks (l.drop 64)
termination_by l.length
decreasing_by
  simp only [List.length_drop]
  have : 0 < l.length := List.length_pos.mpr hl
  omega

/-- The next word of the message schedule, from the words built so far. -/
def newScheduleWord (w : List Nat) : Nat :=
  add32 (add32 (w.getD (w.length - 16) 0) (ssig0 (w.getD (w.length - 15) 0)))
        (add32 (w.getD (w.length - 7) 0) (ssig1 (w.getD (w.length - 2) 0)))

/-- Extend the 16-word schedule by `n` further words. -/
def extendSchedule : Nat → List Nat → List Nat
  | 0, w => w
  | n + 1, w => extendSchedule n (w ++ [newScheduleWord w])

/-- One compression round on the 8-word working state. -/
def compressStep (st : List Nat) (kw : Nat × Nat) : List Nat :=
  let a := st.getD 0 0
  let b := st.getD 1 0
  let c := st.getD 2 0
  let d := st.getD 3 0
  let e := st.getD 4 0
  let f := st.getD 5 0
  let g := st.getD 6 0
  let h := st.getD 7 0
  let t1 := add32 h (add32 (bsig1 e) (add32 (chFn e f g) (add32 kw.1 kw.2)))
  let t2 := add32 (bsig0 a) (majFn a b c)
  [add32 t1 t2, a, b, c, add32 d t1, e, f, g]

/-- Compress one 64-byte chunk into the running hash state. -/
def compressChunk (h : List Nat) (chunk : List Nat) : List Nat :=
  let w := extendSchedule 48 (toWords chunk)
  let st := (sha256K.zip w).foldl compressStep h
  (h.zip st).map (fun p => add32 p.1 p.2)

/-- SHA-256 of a byte list, as the 32 digest bytes. -/
def sha256 (msg : List Nat) : List Nat :=
  (((toChunks (padMessage msg)).foldl compressChunk sha256H0).map wordBytes).flatten

/-- The lowercase hexadecimal digit alphabet. -/
def hexChars : List Char := "0123456789abcdef".data

/-- Two lowercase hex digits of one byte. -/
def byteToHex (b : Nat) : List Char :=
  [hexChars.getD (b / 16 % 16) 'x', hexChars.getD (b % 16) 'x']

/-- Lowercase hex string of a byte list (Node's `digest("hex")`). -/
def bytesToHex (bs : List Nat) : String := String.mk ((bs.map byteToHex).flatten)

/-- `Checksum.generate(stream)`: SHA-256 over all bytes the stream emits,
returned as a lowercase hexadecimal string. -/
def Checksum.generate (bytes : List Nat) : String := bytesToHex (sha256 bytes)

/-! ## HTTP model and the public operations

`fetch` is embedded by passing in the `HttpResponse` the transport would
return; each operation yields the single `HttpRequest` it issues (`none`
when it throws before reaching `fetch`) together with its result.  Response
bodies are kept opaque (`List Nat`): no claim concerns JSON decoding. -/

deriving instance DecidableEq for Except

/-- A `fetch` response: status code and opaque body bytes. -/
structure HttpResponse where
  status : Nat
  body : List Nat
deriving DecidableEq

/-- `Response.ok`: status in the inclusive range 200–299. -/
def HttpResponse.ok (r : HttpResponse) : Bool :=
  decide (200 ≤ r.status) && decide (r.status ≤ 299)

/-- The request an operation hands to `fetch`. -/
structure HttpRequest where
  url : String
  method : String
  headers : List (String × String)
  body : Option (List Nat)
deriving DecidableEq

/-- Outcome of one operation: the request issued (if any) and the result
(`Except.error` embeds a thrown `Error`'s message). -/
structure OpOutcome (α : Type) where
  request : Option HttpRequest
  result : Except String α
deriving DecidableEq

/-- `BunnyCDNStorage.delete(path)`: normalize (file mode), issue DELETE,
return `response.ok` — no throw on a failing status. -/
def deleteOp (storageZoneName apiAccessKey baseAddress : String)
    (path : String) (resp : HttpResponse) : OpOutcome Bool :=
  match normalizePath storageZoneName path false with
  | .error e => ⟨none, .error e⟩
  | .ok np =>
    ⟨some ⟨baseAddress ++ np, "DELETE", [("AccessKey", apiAccessKey)], none⟩,
      .ok resp.ok⟩

/-- `BunnyCDNStorage.get(path)`: normalize (file mode), issue DESCRIBE,
decode on success (body kept opaque), else throw the mapped error. -/
def getOp (storageZoneName apiAccessKey baseAddress : String)
    (path : String) (resp : HttpResponse) : OpOutcome (List Nat) :=
  match normalizePath storageZoneName path false with
  | .error e => ⟨none, .error e⟩
  | .ok np =>
    ⟨some ⟨baseAddress ++ np, "DESCRIBE", [("AccessKey", apiAccessKey)], none⟩,
      if resp.ok then .ok resp.body
      else .error (mapResponseToException storageZoneName resp.status np)⟩

/-- `BunnyCDNStorage.list(path)`: normalize (directory mode), issue GET,
decode on success (body kept opaque), else throw the mapped error. -/
def listOp (storageZoneName apiAccessKey baseAddress : String)
    (path : String) (resp : HttpResponse) : OpOutcome (List Nat) :=
  match normalizePath storageZoneName path true with
  | .error e => ⟨none, .error e⟩
  | .ok np =>
    ⟨some ⟨baseAddress ++ np, "GET", [("AccessKey", apiAccessKey)], none⟩,
      if resp.ok then .ok resp.body
      else .error (mapResponseToException storageZoneName resp.status np)⟩

/-- `BunnyCDNStorage.createFolder(path)`: normalize (directory mode),
issue PUT with no body, throw the mapped error on failure. -/
def createFolderOp (storageZoneName apiAccessKey baseAddress : String)
    (path : String) (resp : HttpResponse) : OpOutcome (List Nat) :=
  match normalizePath storageZoneName path true with
  | .error e => ⟨none, .error e⟩
  | .ok np =>
    ⟨some ⟨baseAddress ++ np, "PUT", [("AccessKey", apiAccessKey)], none⟩,
      if resp.ok then .ok resp.body
      else .error (mapResponseToException storageZoneName resp.status np)⟩

/-- `BunnyCDNStorage.deleteFolder(path)`: normalize (directory mode),
issue DELETE, throw the mapped error on failure (unlike `delete`). -/
def deleteFolderOp (storageZoneName apiAccessKey baseAddress : String)
    (path : String) (resp : HttpResponse) : OpOutcome (List Nat) :=
  match normalizePath storageZoneName path true with
  | .error e => ⟨none, .error e⟩
  | .ok np =>
    ⟨some ⟨baseAddress ++ np, "DELETE", [("AccessKey", apiAccessKey)], none⟩,
      if resp.ok then .ok resp.body
      else .error (mapResponseToException storageZoneName resp.status np)⟩

/-- `BunnyCDNStorage.download(path, localFilePath)`: normalize (file mode),
issue GET, throw the mapped error on failure (local write kept abstract). -/
def downloadOp (storageZoneName apiAccessKey baseAddress : String)
    (path : String) (resp : HttpResponse) : OpOutcome (List Nat) :=
  match normalizePath storageZoneName path false with
  | .error e => ⟨none, .error e⟩
  | .ok np =>
    ⟨some ⟨baseAddress ++ np, "GET", [("AccessKey", apiAccessKey)], none⟩,
      if resp.ok then .ok resp.body
      else .error (mapResponseToException storageZoneName resp.status np)⟩

/-- `BunnyCDNStorage.downloadAsStream(path)`: normalize (file mode),
issue GET, return the body stream, throw the mapped error on failure. -/
def downloadAsStreamOp (storageZoneName apiAccessKey baseAddress : String)
    (path : String) (resp : HttpResponse) : OpOutcome (List Nat) :=
  match normalizePath storageZoneName path false with
  | .error e => ⟨none, .error e⟩
  | .ok np =>
    ⟨some ⟨baseAddress ++ np, "GET", [("AccessKey", apiAccessKey)], none⟩,
      if resp.ok then .ok resp.body
      else .error (mapResponseToException storageZoneName resp.status np)⟩

/-! ## Upload -/

/-- The `input` argument of `upload`, classified by the branches the code
takes on a JS value: a string (local file path), a value with a truthy
`pipe` property (a stream, embedded as the bytes it emits), `null` /
`undefined`, and any other value (number, boolean, plain object, ...). -/
inductive UploadInput where
  | filePath (path : String)
  | byteStream (bytes : List Nat)
  | nullish
  | invalidValue
deriving DecidableEq

/-- How an upload call can fail: the path-validation `Error`, the runtime
`TypeError` raised by reading `.pipe` off `null`/`undefined`, the explicit
`Error("Invalid input type for upload")`, or a thrown HTTP-mapped error. -/
inductive UploadFailure where
  | pathValidation (msg : String)
  | typeError
  | invalidInput
  | http (msg : String)
deriving DecidableEq

/-- Trace of one `upload` call: the payload buffered by `#bufferStream`
(if that step ran), the request issued (if any), and the result. -/
structure UploadTrace where
  buffered : Option (List Nat)
  request : Option HttpRequest
  result : Except UploadFailure (List Nat)
deriving DecidableEq

/-- JS truthiness of the `sha256Checksum` variable: `null` and the empty
string are falsy. -/
def checksumTruthy : Option String → Bool
  | none => false
  | some s => !(s == "")

/-- The `typeof input === "string"` / `input.pipe` dispatch at the top of
`upload`: a string becomes `fs.createReadStream(input)` (the file's bytes,
via the ambient `fsRead`), a stream is used as-is, `null`/`undefined`
raise a `TypeError` at the `.pipe` access, anything else raises
`Error("Invalid input type for upload")`. -/
def resolveInput (fsRead : String → List Nat) :
    UploadInput → Except UploadFailure (List Nat)
  | .filePath p => .ok (fsRead p)
  | .byteStream b => .ok b
  | .nullish => .error .typeError
  | .invalidValue => .error .invalidInput

/-- `BunnyCDNStorage.upload(input, storagePath, validateChecksum = false,
sha256Checksum = null, contentTypeOverride = "")`: normalize the storage
path, resolve the input to a byte stream, buffer and hash it when
verification is requested without a supplied checksum, then issue a PUT
whose headers carry the access key, the checksum when one is (truthily)
held, and the content-type override when nonempty.  On a failing response,
a 400 with a checksum held raises the checksum-mismatch error, anything
else the mapped error. -/
def upload (storageZoneName apiAccessKey baseAddress : String)
    (fsRead : String → List Nat) (input : UploadInput) (storagePath : String)
    (validateChecksum : Bool) (sha256Checksum : Option String)
    (contentTypeOverride : String) (resp : HttpResponse) : UploadTrace :=
  match normalizePath storageZoneName storagePath false with
  | .error e => ⟨none, none, .error (.pathValidation e)⟩
  | .ok normalizedPath =>
    match resolveInput fsRead input with
    | .error e => ⟨none, none, .error e⟩
    | .ok bytes =>
      let doGenerate := validateChecksum && !(checksumTruthy sha256Checksum)
      let buffered := if doGenerate then some bytes else none
      let finalChecksum :=
        if doGenerate then some (Checksum.generate bytes) else sha256Checksum
      let headers :=
        [("AccessKey", apiAccessKey)] ++
        (if checksumTruthy finalChecksum then
          [("Checksum", finalChecksum.getD "")] else []) ++
        (if contentTypeOverride = "" then []
         else [("Override-Content-Type", contentTypeOverride)])
      let req : HttpRequest :=
        ⟨baseAddress ++ normalizedPath, "PUT", headers, some bytes⟩
      let result : Except UploadFailure (List Nat) :=
        if resp.ok then .ok resp.body
        else
          .error (.http (uploadHttpError storageZoneName resp.status
            (checksumTruthy finalChecksum) normalizedPath))
      ⟨buffered, some req, result⟩

/-! ## Helper lemmas on the string pipeline -/

theorem isPrefixOf_self (l : List Char) : l.isPrefixOf l = true := by
  induction l with
  | nil => rfl
  | cons a as ih => simp [List.isPrefixOf, ih]

theorem isPrefixOf_iff_exists {l₁ l₂ : List Char} :
    l₁.isPrefixOf l₂ = true ↔ ∃ t, l₂ = l₁ ++ t := by
  induction l₁ generalizing l₂ with
  | nil => simp [List.isPrefixOf]
  | cons a as ih =>
    cases l₂ with
    | nil => simp [List.isPrefixOf]
    | cons b bs =>
      rw [show (a :: as).isPrefixOf (b :: bs) = (a == b && as.isPrefixOf bs)
        from rfl, Bool.and_eq_true, beq_iff_eq, ih]
      constructor
      · rintro ⟨hab, t, ht⟩
        exact ⟨t, by rw [hab, ht]; rfl⟩
      · rintro ⟨t, ht⟩
        injection ht with h1 h2
        exact ⟨h1.symm, t, h2⟩

theorem containsSeq_append_self (a pat : List Char) :
    containsSeq pat (a ++ pat) = true := by
  induction a with
  | nil =>
    cases pat with
    | nil => rfl
    | cons c r => simp [containsSeq, isPrefixOf_self]
  | cons x a' ih => simp [containsSeq, ih]

theorem collapseSlashes_head? (l : List Char) :
    (collapseSlashes l).head? = l.head? := by
  induction l with
  | nil => rfl
  | cons c tl ih =>
    cases tl with
    | nil => rfl
    | cons d rest =>
      by_cases h : c = '/' ∧ d = '/'
      · obtain ⟨hc, hd⟩ := h
        subst hc
        subst hd
        rw [collapseSlashes, if_pos ⟨rfl, rfl⟩, ih]
        rfl
      · rw [collapseSlashes, if_neg h]
        rfl

theorem collapseSlashes_ne_nil {l : List Char} (h : l ≠ []) :
    collapseSlashes l ≠ [] := by
  intro hc
  have := collapseSlashes_head? l
  rw [hc] at this
  cases l with
  | nil => exact h rfl
  | cons a as => simp at this

theorem collapseSlashes_getLast? (l : List Char) :
    (collapseSlashes l).getLast? = l.getLast? := by
  induction l with
  | nil => rfl
  | cons c tl ih =>
    cases tl with
    | nil => rfl
    | cons d rest =>
      by_cases h : c = '/' ∧ d = '/'
      · rw [collapseSlashes, if_pos h, ih, List.getLast?_cons_cons]
      · rw [collapseSlashes, if_neg h]
        obtain ⟨x, xs, hx⟩ : ∃ x xs, collapseSlashes (d :: rest) = x :: xs := by
          cases hc : collapseSlashes (d :: rest) with
          | nil => exact absurd hc (collapseSlashes_ne_nil (by simp))
          | cons x xs => exact ⟨x, xs, rfl⟩
        rw [hx, List.getLast?_cons_cons, ← hx, ih, List.getLast?_cons_cons]

theorem hasDoubleSlash_collapseSlashes (l : List Char) :
    hasDoubleSlash (collapseSlashes l) = false := by
  induction l with
  | nil => rfl
  | cons c tl ih =>
    cases tl with
    | nil => rfl
    | cons d rest =>
      by_cases h : c = '/' ∧ d = '/'
      · rw [collapseSlashes, if_pos h]
        exact ih
      · rw [collapseSlashes, if_neg h]
        cases hc : collapseSlashes (d :: rest) with
        | nil => rfl
        | cons x xs =>
          have hx : x = d := by
            have := collapseSlashes_head? (d :: rest)
            rw [hc] at this
            simpa using this
          rw [hasDoubleSlash, ← hc, ih, Bool.or_false]
          subst hx
          by_cases hcs : c = '/'
          · have hds : ¬x = '/' := fun hd => h ⟨hcs, hd⟩
            simp [hds]
          · simp [hcs]

theorem collapseSlashes_eq_self {l : List Char} (h : hasDoubleSlash l = false) :
    collapseSlashes l = l := by
  induction l with
  | nil => rfl
  | cons c tl ih =>
    cases tl with
    | nil => rfl
    | cons d rest =>
      rw [hasDoubleSlash, Bool.or_eq_false_iff] at h
      obtain ⟨h1, h2⟩ := h
      have hne : ¬(c = '/' ∧ d = '/') := by
        rintro ⟨hc, hd⟩
        subst hc
        subst hd
        simp at h1
      rw [collapseSlashes, if_neg hne, ih h2]

theorem collapseSlashes_append {a : List Char} {c : Char} (s : List Char)
    (h : hasDoubleSlash (a ++ [c]) = false) :
    collapseSlashes (a ++ c :: s) = a ++ collapseSlashes (c :: s) := by
  induction a with
  | nil => rfl
  | cons x a' ih =>
    cases a' with
    | nil =>
      have hne : ¬(x = '/' ∧ c = '/') := by
        rintro ⟨hx, hc⟩
        subst hx
        subst hc
        simp [hasDoubleSlash] at h
      show collapseSlashes (x :: c :: s) = x :: collapseSlashes (c :: s)
      rw [collapseSlashes, if_neg hne]
    | cons y a'' =>
      have h' : hasDoubleSlash (x :: y :: (a'' ++ [c])) = false := by
        simpa using h
      rw [hasDoubleSlash, Bool.or_eq_false_iff] at h'
      obtain ⟨h1, h2⟩ := h'
      have hne : ¬(x = '/' ∧ y = '/') := by
        rintro ⟨hx, hy⟩
        subst hx
        subst hy
        simp at h1
      have h2' : hasDoubleSlash ((y :: a'') ++ [c]) = false := by
        simpa using h2
      show collapseSlashes (x :: ((y :: a'') ++ c :: s)) =
        x :: ((y :: a'') ++ collapseSlashes (c :: s))
      rw [List.cons_append, collapseSlashes, if_neg hne,
        ← List.cons_append, ih h2']

theorem hasDoubleSlash_of_getLast (l : List Char)
    (h1 : l.getLast? = some '/') (h2 : l.dropLast.getLast? = some '/') :
    hasDoubleSlash l = true := by
  induction l with
  | nil => simp at h1
  | cons c tl ih =>
    cases tl with
    | nil => simp at h2
    | cons d rest =>
      cases rest with
      | nil =>
        simp at h1 h2
        subst h1
        subst h2
        rfl
      | cons e rest' =>
        rw [List.getLast?_cons_cons] at h1
        have hdrop : (c :: d :: e :: rest').dropLast =
            c :: (d :: e :: rest').dropLast := rfl
        rw [hdrop] at h2
        have hne : (d :: e :: rest').dropLast ≠ [] := by simp
        cases hdl : (d :: e :: rest').dropLast with
        | nil => exact absurd hdl hne
        | cons u us =>
          rw [hdl, List.getLast?_cons_cons] at h2
          have h2' : (d :: e :: rest').dropLast.getLast? = some '/' := by
            rw [hdl]
            exact h2
          rw [hasDoubleSlash, ih h1 h2', Bool.or_true]

theorem collapseSlashes_sublist (l : List Char) :
    (collapseSlashes l).Sublist l := by
  induction l with
  | nil => exact List.Sublist.refl []
  | cons c tl ih =>
    cases tl with
    | nil => exact List.Sublist.refl [c]
    | cons d rest =>
      by_cases h : c = '/' ∧ d = '/'
      · rw [collapseSlashes, if_pos h]
        exact ih.cons c
      · rw [collapseSlashes, if_neg h]
        exact ih.cons₂ c

theorem dropWhile_eq_self_of_head? {p : Char → Bool} {l : List Char}
    (h : ∀ c, l.head? = some c → p c = false) : l.dropWhile p = l := by
  cases l with
  | nil => rfl
  | cons c tl =>
    rw [List.dropWhile_cons, if_neg]
    simp [h c rfl]

theorem dropTrailing_eq_self {p : Char → Bool} {l : List Char}
    (h : ∀ c, l.getLast? = some c → p c = false) : dropTrailing p l = l := by
  unfold dropTrailing
  rw [dropWhile_eq_self_of_head?, List.reverse_reverse]
  intro c hc
  rw [List.head?_reverse] at hc
  exact h c hc

theorem trimChars_eq_self {l : List Char}
    (hh : ∀ c, l.head? = some c → isSpace c = false)
    (hl : ∀ c, l.getLast? = some c → isSpace c = false) : trimChars l = l := by
  unfold trimChars
  rw [dropWhile_eq_self_of_head? hh, dropTrailing_eq_self hl]

theorem replaceBackslashes_eq_self {l : List Char}
    (h : ∀ c ∈ l, c ≠ '\\') : replaceBackslashes l = l := by
  unfold replaceBackslashes
  induction l with
  | nil => rfl
  | cons c tl ih =>
    rw [List.map_cons, if_neg (h c (by simp)), ih]
    intro x hx
    exact h x (by simp [hx])

theorem replaceBackslashes_no_bs (l : List Char) :
    ∀ c ∈ replaceBackslashes l, c ≠ '\\' := by
  intro c hc
  unfold replaceBackslashes at hc
  obtain ⟨a, _, hfa⟩ := List.mem_map.mp hc
  by_cases h : a = '\\'
  · rw [h] at hfa
    simp at hfa
    rw [← hfa]
    decide
  · rw [if_neg h] at hfa
    rw [← hfa]
    exact h

theorem getLast?_map_not_space (l : List Char)
    (h : ∀ c, l.getLast? = some c → isSpace c = false) :
    ∀ c, (replaceBackslashes l).getLast? = some c → isSpace c = false := by
  intro c hc
  unfold replaceBackslashes at hc
  rw [← List.head?_reverse, ← List.map_reverse, List.head?_map] at hc
  cases hrev : l.reverse.head? with
  | none => rw [hrev] at hc; simp at hc
  | some a =>
    rw [hrev] at hc
    simp at hc
    have ha : isSpace a = false := by
      apply h
      rw [← List.head?_reverse]
      exact hrev
    by_cases hb : a = '\\'
    · rw [hb] at hc
      simp at hc
      rw [← hc]
      decide
    · rw [if_neg hb] at hc
      rw [← hc]
      exact ha

theorem getLast?_dropWhile (p : Char → Bool) (l : List Char)
    (h : l.dropWhile p ≠ []) : (l.dropWhile p).getLast? = l.getLast? := by
  induction l with
  | nil => simp at h
  | cons c tl ih =>
    rw [List.dropWhile_cons]
    by_cases hp : p c = true
    · rw [if_pos hp]
      rw [List.dropWhile_cons, if_pos hp] at h
      rw [ih h]
      have htl : tl ≠ [] := by
        intro he
        rw [he] at h
        simp at h
      cases tl with
      | nil => exact absurd rfl htl
      | cons d rest => rw [List.getLast?_cons_cons]
    · rw [if_neg hp]

theorem trimChars_getLast_not_space (l : List Char) :
    ∀ c, (trimChars l).getLast? = some c → isSpace c = false := by
  intro c hc
  unfold trimChars dropTrailing at hc
  rw [List.getLast?_reverse] at hc
  have := List.head?_dropWhile_not isSpace ((l.dropWhile isSpace).reverse)
  rw [hc] at this
  simpa using this

theorem cleanPath_head_not_slash (l : List Char) :
    ∀ c, (cleanPath l).head? = some c → (c == '/') = false := by
  intro c hc
  unfold cleanPath stripLeadingSlashes at hc
  have := List.head?_dropWhile_not (fun c => c == '/')
    (replaceBackslashes (trimChars l))
  rw [hc] at this
  simpa using this

theorem cleanPath_no_bs (l : List Char) : ∀ c ∈ cleanPath l, c ≠ '\\' := by
  intro c hc
  unfold cleanPath stripLeadingSlashes at hc
  exact replaceBackslashes_no_bs _ c ((List.dropWhile_sublist _).subset hc)

theorem cleanPath_getLast_not_space (l : List Char) (hne : cleanPath l ≠ []) :
    ∀ c, (cleanPath l).getLast? = some c → isSpace c = false := by
  intro c hc
  unfold cleanPath stripLeadingSlashes at hc hne
  rw [getLast?_dropWhile _ _ hne] at hc
  exact getLast?_map_not_space (trimChars l) (trimChars_getLast_not_space l) c hc

theorem normalizePath_eq_ok {z p : String} (d : Bool)
    (h : (z.data ++ ['/']).isPrefixOf (cleanPath p.data) = true) :
    normalizePath z p d =
      .ok (String.mk (collapseSlashes (dirAdjust d (cleanPath p.data)))) := by
  simp only [normalizePath]
  rw [if_pos h]

theorem normalizePath_eq_error {z p : String} (d : Bool)
    (h : (z.data ++ ['/']).isPrefixOf (cleanPath p.data) = false) :
    normalizePath z p d =
      .error ("Path validation failed. File path must begin with /" ++
        z ++ "/.") := by
  simp only [normalizePath]
  rw [if_neg]
  simp [h]

theorem normalizePath_ok_inv {z p : String} {d : Bool} {q : String}
    (h : normalizePath z p d = .ok q) :
    (z.data ++ ['/']).isPrefixOf (cleanPath p.data) = true ∧
    q.data = collapseSlashes (dirAdjust d (cleanPath p.data)) := by
  by_cases hc : (z.data ++ ['/']).isPrefixOf (cleanPath p.data) = true
  · refine ⟨hc, ?_⟩
    rw [normalizePath_eq_ok d hc] at h
    injection h with h'
    rw [← h']
  · have hf : (z.data ++ ['/']).isPrefixOf (cleanPath p.data) = false :=
      Bool.eq_false_iff.mpr hc
    rw [normalizePath_eq_error d hf] at h
    simp at h

theorem dirAdjust_true_getLast (l : List Char) :
    (dirAdjust true l).getLast? = some '/' := by
  show (if l.getLast? = some '/' then l else l ++ ['/']).getLast? = some '/'
  by_cases h : l.getLast? = some '/'
  · rw [if_pos h]
    exact h
  · rw [if_neg h]
    exact List.getLast?_concat l

theorem collapse_keeps_shape {Z : List Char} (rest2 : List Char)
    (hzDS : hasDoubleSlash (Z ++ ['/']) = false) :
    ∃ w, collapseSlashes (Z ++ '/' :: rest2) = Z ++ '/' :: w := by
  rw [collapseSlashes_append rest2 hzDS]
  obtain ⟨x, xs, hx⟩ : ∃ x xs, collapseSlashes ('/' :: rest2) = x :: xs := by
    cases hc : collapseSlashes ('/' :: rest2) with
    | nil => exact absurd hc (collapseSlashes_ne_nil (by simp))
    | cons x xs => exact ⟨x, xs, rfl⟩
  have hx' : x = '/' := by
    have := collapseSlashes_head? ('/' :: rest2)
    rw [hx] at this
    simpa using this
  subst hx'
  exact ⟨xs, by rw [hx]⟩

/-! ## Claim C3: idempotence of path normalization -/

/-- C3 (counterexample): for zone name `"a/"` the raw path `"a//b"`
normalizes successfully to `"a/b"`, but normalizing that output again
fails, so `normalize(normalize(p, d), d) == normalize(p, d)` does not hold
for every zone name. -/
theorem C3_counterexample :
    normalizePath "a/" "a//b" false = .ok "a/b" ∧
    normalizePath "a/" "a/b" false =
      .error "Path validation failed. File path must begin with /a//." :=
  ⟨by decide, by decide⟩

/-- C3 (amended): for every zone name `z` whose first character is not
whitespace and such that `z ++ "/"` contains no doubled slash (i.e. `z` has
no `"//"` and does not end in `"/"`), every directory-intent flag `d`, and
every raw path `p` on which normalization succeeds, normalization is
idempotent: `normalize(normalize(p, d), d) == normalize(p, d)`. -/
theorem C3_normalize_idempotent_amended (z p q : String) (d : Bool)
    (hzHead : z.data.head?.all (fun c => !isSpace c) = true)
    (hzDS : hasDoubleSlash (z.data ++ ['/']) = false)
    (h : normalizePath z p d = .ok q) :
    normalizePath z q d = .ok q := by
  obtain ⟨h1, h2⟩ := normalizePath_ok_inv h
  obtain ⟨rest, hq0⟩ : ∃ rest, cleanPath p.data = z.data ++ '/' :: rest := by
    obtain ⟨t, ht⟩ := isPrefixOf_iff_exists.mp h1
    exact ⟨t, by rw [ht, List.append_assoc, List.singleton_append]⟩
  obtain ⟨zc, ztl, hzd⟩ : ∃ zc ztl, z.data = zc :: ztl := by
    cases hz : z.data with
    | nil =>
      exfalso
      have hh : (cleanPath p.data).head? = some '/' := by
        rw [hq0, hz]
        rfl
      have := cleanPath_head_not_slash p.data '/' hh
      simp at this
    | cons a b => exact ⟨a, b, rfl⟩
  have hq0head : (cleanPath p.data).head? = some zc := by
    rw [hq0, hzd]
    rfl
  have hzcSlash : (zc == '/') = false := cleanPath_head_not_slash p.data zc hq0head
  have hzcSpace : isSpace zc = false := by
    rw [hzd] at hzHead
    simpa using hzHead
  have hq0ne : cleanPath p.data ≠ [] := by
    rw [hq0]
    simp
  obtain ⟨rest2, hmEq, hmLast⟩ :
      ∃ rest2, dirAdjust d (cleanPath p.data) = z.data ++ '/' :: rest2 ∧
        (d = true → (dirAdjust d (cleanPath p.data)).getLast? = some '/') := by
    cases d with
    | false =>
      refine ⟨rest, hq0, ?_⟩
      intro hh
      simp at hh
    | true =>
      by_cases he : (cleanPath p.data).getLast? = some '/'
      · refine ⟨rest, ?_, fun _ => dirAdjust_true_getLast _⟩
        show (if (cleanPath p.data).getLast? = some '/' then cleanPath p.data
          else cleanPath p.data ++ ['/']) = z.data ++ '/' :: rest
        rw [if_pos he]
        exact hq0
      · refine ⟨rest ++ ['/'], ?_, fun _ => dirAdjust_true_getLast _⟩
        show (if (cleanPath p.data).getLast? = some '/' then cleanPath p.data
          else cleanPath p.data ++ ['/']) = z.data ++ '/' :: (rest ++ ['/'])
        rw [if_neg he, hq0]
        simp
  have hmLastSpace : ∀ c, (dirAdjust d (cleanPath p.data)).getLast? = some c →
      isSpace c = false := by
    cases d with
    | false => exact cleanPath_getLast_not_space p.data hq0ne
    | true =>
      intro c hc
      rw [hmLast rfl] at hc
      have : c = '/' := by simpa using hc.symm
      rw [this]
      decide
  have hmNoBS : ∀ c ∈ dirAdjust d (cleanPath p.data), c ≠ '\\' := by
    cases d with
    | false => exact cleanPath_no_bs p.data
    | true =>
      intro c hc
      have hc' : c ∈ (if (cleanPath p.data).getLast? = some '/' then
          cleanPath p.data else cleanPath p.data ++ ['/']) := hc
      by_cases he : (cleanPath p.data).getLast? = some '/'
      · rw [if_pos he] at hc'
        exact cleanPath_no_bs p.data c hc'
      · rw [if_neg he] at hc'
        rcases List.mem_append.mp hc' with hl | hr
        · exact cleanPath_no_bs p.data c hl
        · have : c = '/' := by simpa using hr
          rw [this]
          decide
  obtain ⟨w, hw⟩ : ∃ w, collapseSlashes (dirAdjust d (cleanPath p.data)) =
      z.data ++ '/' :: w := by
    rw [hmEq]
    exact collapse_keeps_shape rest2 hzDS
  have hqEq : q.data = collapseSlashes (dirAdjust d (cleanPath p.data)) := h2
  have hrHead : q.data.head? = some zc := by
    rw [hqEq, hw, hzd]
    rfl
  have hrLast : q.data.getLast? = (dirAdjust d (cleanPath p.data)).getLast? := by
    rw [hqEq, collapseSlashes_getLast?]
  have hrNoBS : ∀ c ∈ q.data, c ≠ '\\' := by
    intro c hc
    rw [hqEq] at hc
    exact hmNoBS c ((collapseSlashes_sublist _).subset hc)
  have hrDS : hasDoubleSlash q.data = false := by
    rw [hqEq]
    exact hasDoubleSlash_collapseSlashes _
  have hTrim : trimChars q.data = q.data := by
    apply trimChars_eq_self
    · intro c hc
      rw [hrHead] at hc
      have hcz : c = zc := by simpa using hc.symm
      rw [hcz]
      exact hzcSpace
    · intro c hc
      rw [hrLast] at hc
      exact hmLastSpace c hc
  have hRepl : replaceBackslashes q.data = q.data :=
    replaceBackslashes_eq_self hrNoBS
  have hStrip : List.dropWhile (fun c => c == '/') q.data = q.data := by
    apply dropWhile_eq_self_of_head?
    intro c hc
    rw [hrHead] at hc
    have hcz : c = zc := by simpa using hc.symm
    rw [hcz]
    exact hzcSlash
  have hclean : cleanPath q.data = q.data := by
    unfold cleanPath stripLeadingSlashes
    rw [hTrim, hRepl, hStrip]
  have hpre : (z.data ++ ['/']).isPrefixOf (cleanPath q.data) = true := by
    rw [hclean, hqEq, hw]
    exact isPrefixOf_iff_exists.mpr
      ⟨w, by rw [List.append_assoc, List.singleton_append]⟩
  rw [normalizePath_eq_ok d hpre]
  have hAdj : dirAdjust d (cleanPath q.data) = q.data := by
    rw [hclean]
    cases d with
    | false => rfl
    | true =>
      show (if q.data.getLast? = some '/' then q.data else q.data ++ ['/']) =
        q.data
      rw [if_pos (by rw [hrLast]; exact hmLast rfl)]
  rw [hAdj, collapseSlashes_eq_self hrDS]

/-- C3 witness: the amended idempotence theorem instantiated at zone
`"zone"`, raw path `" /zone//a\b "`, directory mode. -/
theorem C3_witness :
    ("zone".data.head?.all (fun c => !isSpace c) = true) ∧
    hasDoubleSlash ("zone".data ++ ['/']) = false ∧
    normalizePath "zone" " /zone//a\\b " true = .ok "zone/a/b/" ∧
    normalizePath "zone" "zone/a/b/" true = .ok "zone/a/b/" :=
  ⟨by decide, by decide, by decide,
    C3_normalize_idempotent_amended "zone" " /zone//a\\b " "zone/a/b/" true
      (by decide) (by decide) (by decide)⟩

/-! ## Claim C4: directory-mode trailing slash -/

/-- C4: whenever directory-mode normalization succeeds, the result ends in
a slash, contains no two consecutive slashes anywhere, and its
second-to-last character is not a slash — i.e. exactly one trailing
slash, regardless of input slash repetition. -/
theorem C4_dir_normalize_trailing (z p q : String)
    (h : normalizePath z p true = .ok q) :
    q.data.getLast? = some '/' ∧ hasDoubleSlash q.data = false ∧
    q.data.dropLast.getLast? ≠ some '/' := by
  obtain ⟨h1, h2⟩ := normalizePath_ok_inv h
  have hg : q.data.getLast? = some '/' := by
    rw [h2, collapseSlashes_getLast?]
    exact dirAdjust_true_getLast _
  have hds : hasDoubleSlash q.data = false := by
    rw [h2]
    exact hasDoubleSlash_collapseSlashes _
  refine ⟨hg, hds, ?_⟩
  intro hbad
  have ht := hasDoubleSlash_of_getLast q.data hg hbad
  rw [hds] at ht
  exact Bool.noConfusion ht

/-- C4 witness: the trailing-slash theorem at zone `"zone"` and the
slash-repeating input `"zone//a//"`. -/
theorem C4_witness :
    normalizePath "zone" "zone//a//" true = .ok "zone/a/" ∧
    (("zone/a/" : String).data.getLast? = some '/' ∧
      hasDoubleSlash ("zone/a/" : String).data = false ∧
      ("zone/a/" : String).data.dropLast.getLast? ≠ some '/') :=
  ⟨by decide, C4_dir_normalize_trailing "zone" "zone//a//" "zone/a/" (by decide)⟩

/-! ## Claim C2: the zone-prefix gate -/

/-- C2: for every zone name `z` and raw path `p`, normalization fails with
the validation error — and no operation issues an HTTP request — exactly
when `p`, after trimming, backslash replacement and stripping of leading
slashes, does not start with `z ++ "/"`; it succeeds otherwise. -/
theorem C2_normalize_gatekeeps_requests (z p : String) (d : Bool) :
    ((z.data ++ ['/']).isPrefixOf (cleanPath p.data) = false →
      normalizePath z p d =
        .error ("Path validation failed. File path must begin with /" ++
          z ++ "/.") ∧
      ∀ (key base ct : String) (v : Bool) (ck : Option String)
        (fsRead : String → List Nat) (input : UploadInput)
        (resp : HttpResponse),
        (deleteOp z key base p resp).request = none ∧
        (getOp z key base p resp).request = none ∧
        (listOp z key base p resp).request = none ∧
        (createFolderOp z key base p resp).request = none ∧
        (deleteFolderOp z key base p resp).request = none ∧
        (downloadOp z key base p resp).request = none ∧
        (downloadAsStreamOp z key base p resp).request = none ∧
        (upload z key base fsRead input p v ck ct resp).request = none) ∧
    ((z.data ++ ['/']).isPrefixOf (cleanPath p.data) = true →
      ∃ q, normalizePath z p d = .ok q) := by
  constructor
  · intro hf
    have he0 := normalizePath_eq_error (z := z) (p := p) false hf
    have he1 := normalizePath_eq_error (z := z) (p := p) true hf
    refine ⟨normalizePath_eq_error d hf, ?_⟩
    intro key base ct v ck fsRead input resp
    refine ⟨?_, ?_, ?_, ?_, ?_, ?_, ?_, ?_⟩ <;>
      simp [deleteOp, getOp, listOp, createFolderOp, deleteFolderOp,
        downloadOp, downloadAsStreamOp, upload, he0, he1]
  · intro ht
    exact ⟨_, normalizePath_eq_ok d ht⟩

/-- C2 witness: at zone `"zone"` and path `"other/file"` the prefix test
fails, normalization errors, and neither `delete` nor `upload` issues a
request. -/
theorem C2_witness :
    (("zone".data ++ ['/']).isPrefixOf (cleanPath ("other/file").data) =
      false) ∧
    normalizePath "zone" "other/file" false =
      .error "Path validation failed. File path must begin with /zone/." ∧
    (deleteOp "zone" "k" "b" "other/file" ⟨200, []⟩).request = none ∧
    (upload "zone" "k" "b" (fun _ => []) .invalidValue "other/file" false
      none "" ⟨200, []⟩).request = none := by
  have hf : ("zone".data ++ ['/']).isPrefixOf (cleanPath ("other/file").data) =
      false := by decide
  obtain ⟨herr, hops⟩ :=
    (C2_normalize_gatekeeps_requests "zone" "other/file" false).1 hf
  have h8 := hops "k" "b" "" false none (fun _ => []) .invalidValue ⟨200, []⟩
  exact ⟨hf, herr, h8.1, h8.2.2.2.2.2.2.2⟩

/-! ## Claim C5: region resolution -/

/-- C5: the region resolver maps `""` and any casing of `"de"` to
`https://storage.bunnycdn.com/` and every other code `c` verbatim to
`https://{c}.storage.bunnycdn.com/`; in particular
`resolve("ny") == "https://ny.storage.bunnycdn.com/"`. -/
theorem C5_region_resolver :
    getBaseAddress "" = "https://storage.bunnycdn.com/" ∧
    getBaseAddress "de" = "https://storage.bunnycdn.com/" ∧
    getBaseAddress "De" = "https://storage.bunnycdn.com/" ∧
    getBaseAddress "dE" = "https://storage.bunnycdn.com/" ∧
    getBaseAddress "DE" = "https://storage.bunnycdn.com/" ∧
    (∀ r : String, lowerStr r = "de" →
      getBaseAddress r = "https://storage.bunnycdn.com/") ∧
    (∀ r : String, r ≠ "" → lowerStr r ≠ "de" →
      getBaseAddress r = "https://" ++ r ++ ".storage.bunnycdn.com/") ∧
    getBaseAddress "ny" = "https://ny.storage.bunnycdn.com/" := by
  refine ⟨by decide, by decide, by decide, by decide, by decide, ?_, ?_,
    by decide⟩
  · intro r hr
    unfold getBaseAddress
    rw [if_pos (Or.inr hr)]
  · intro r h1 h2
    unfold getBaseAddress
    rw [if_neg]
    rintro (hc | hc)
    exacts [h1 hc, h2 hc]

/-- C5 witness: the general regional-endpoint law applied to `"ny"`. -/
theorem C5_witness :
    (("ny" : String) ≠ "" ∧ lowerStr "ny" ≠ "de") ∧
    getBaseAddress "ny" = "https://ny.storage.bunnycdn.com/" :=
  ⟨⟨by decide, by decide⟩,
    C5_region_resolver.2.2.2.2.2.2.1 "ny" (by decide) (by decide)⟩

/-! ## Claim C1: the error taxonomy -/

/-- C1: status 404 maps to the not-found error containing the path, 401 to
the unauthorized error containing the zone name, 400 on an upload holding
a checksum to the checksum-mismatch error, 400 without a checksum to the
generic invalid-path error, and any other non-2xx status to the opaque
unknown error. -/
theorem C1_error_mapper_taxonomy (z p : String) (s : Nat) (ck : Bool) :
    (mapResponseToException z 404 p = "File not found: " ++ p ∧
      containsSeq p.data (mapResponseToException z 404 p).data = true) ∧
    (mapResponseToException z 401 p =
        "Unauthorized access to storage zone: " ++ z ∧
      containsSeq z.data (mapResponseToException z 401 p).data = true) ∧
    uploadHttpError z 400 true p = "Checksum mismatch for " ++ p ∧
    uploadHttpError z 400 false p =
      "Unable to upload file. Invalid path specified" ∧
    (¬(200 ≤ s ∧ s ≤ 299) → s ≠ 404 → s ≠ 400 → s ≠ 401 →
      uploadHttpError z s ck p =
        "An unknown error has occurred during the request.") := by
  refine ⟨⟨rfl, ?_⟩, ⟨rfl, ?_⟩, rfl, rfl, ?_⟩
  · rw [show mapResponseToException z 404 p = "File not found: " ++ p from rfl,
      String.data_append]
    exact containsSeq_append_self _ _
  · rw [show mapResponseToException z 401 p =
      "Unauthorized access to storage zone: " ++ z from rfl,
      String.data_append]
    exact containsSeq_append_self _ _
  · intro _ h404 h400 h401
    unfold uploadHttpError mapResponseToException
    rw [if_neg (fun hc => h400 hc.1), if_neg h404, if_neg h400, if_neg h401]

/-- C1 witness: the unknown-error branch of the taxonomy at status 500. -/
theorem C1_witness :
    (¬(200 ≤ 500 ∧ 500 ≤ 299) ∧ (500 : Nat) ≠ 404 ∧ (500 : Nat) ≠ 400 ∧
      (500 : Nat) ≠ 401) ∧
    uploadHttpError "z" 500 true "z/f" =
      "An unknown error has occurred during the request." :=
  ⟨⟨by decide, by decide, by decide, by decide⟩,
    (C1_error_mapper_taxonomy "z" "z/f" 500 true).2.2.2.2 (by decide)
      (by decide) (by decide) (by decide)⟩

/-! ## Claim C8: error context -/

/-- C8 (counterexample): for zone `"z1"` and normalized path
`"z1/file.txt"`, the status-400 message contains neither the path nor the
zone name, so not every error kind carries path/zone context. -/
theorem C8_counterexample :
    mapResponseToException "z1" 400 "z1/file.txt" =
      "Unable to upload file. Invalid path specified" ∧
    containsSeq ("z1/file.txt" : String).data
      ("Unable to upload file. Invalid path specified" : String).data =
      false ∧
    containsSeq ("z1" : String).data
      ("Unable to upload file. Invalid path specified" : String).data =
      false :=
  ⟨by decide, by decide, by decide⟩

/-- C8 (amended): the not-found and checksum-mismatch messages contain the
request path and the unauthorized message contains the zone name, but the
invalid-path and unknown errors are fixed strings with no path or zone
interpolated. -/
theorem C8_error_context_amended (z p : String) (s : Nat) :
    containsSeq p.data (mapResponseToException z 404 p).data = true ∧
    containsSeq z.data (mapResponseToException z 401 p).data = true ∧
    containsSeq p.data (uploadHttpError z 400 true p).data = true ∧
    mapResponseToException z 400 p =
      "Unable to upload file. Invalid path specified" ∧
    (s ≠ 404 → s ≠ 400 → s ≠ 401 →
      mapResponseToException z s p =
        "An unknown error has occurred during the request.") := by
  refine ⟨?_, ?_, ?_, rfl, ?_⟩
  · rw [show mapResponseToException z 404 p = "File not found: " ++ p from rfl,
      String.data_append]
    exact containsSeq_append_self _ _
  · rw [show mapResponseToException z 401 p =
      "Unauthorized access to storage zone: " ++ z from rfl,
      String.data_append]
    exact containsSeq_append_self _ _
  · rw [show uploadHttpError z 400 true p = "Checksum mismatch for " ++ p
      from rfl, String.data_append]
    exact containsSeq_append_self _ _
  · intro h404 h400 h401
    unfold mapResponseToException
    rw [if_neg h404, if_neg h400, if_neg h401]

/-- C8 witness: the amended context theorem at zone `"z1"`, path `"z1/f"`,
status 500. -/
theorem C8_witness :
    ((500 : Nat) ≠ 404 ∧ (500 : Nat) ≠ 400 ∧ (500 : Nat) ≠ 401) ∧
    containsSeq ("z1/f" : String).data
      (mapResponseToException "z1" 404 "z1/f").data = true ∧
    mapResponseToException "z1" 500 "z1/f" =
      "An unknown error has occurred during the request." :=
  ⟨⟨by decide, by decide, by decide⟩,
    (C8_error_context_amended "z1" "z1/f" 500).1,
    (C8_error_context_amended "z1" "z1/f" 500).2.2.2.2 (by decide) (by decide)
      (by decide)⟩

/-! ## Claim C7: boolean delete -/

/-- C7: on every path that normalizes, `delete` returns `response.ok` as a
boolean and never throws on a failing status — `true` iff the status is
2xx, so 200 yields `true` and 404 yields `false` — while `deleteFolder`
throws the mapped error on failure. -/
theorem C7_delete_boolean (z key base p np : String) (resp : HttpResponse)
    (h : normalizePath z p false = .ok np) :
    (deleteOp z key base p resp).result = .ok resp.ok ∧
    (resp.ok = true ↔ 200 ≤ resp.status ∧ resp.status ≤ 299) ∧
    (resp.status = 200 → (deleteOp z key base p resp).result = .ok true) ∧
    (resp.status = 404 → (deleteOp z key base p resp).result = .ok false) ∧
    (resp.ok = false → ∀ np2, normalizePath z p true = .ok np2 →
      (deleteFolderOp z key base p resp).result =
        .error (mapResponseToException z resp.status np2)) := by
  have hres : (deleteOp z key base p resp).result = .ok resp.ok := by
    simp [deleteOp, h]
  refine ⟨hres, ?_, ?_, ?_, ?_⟩
  · simp [HttpResponse.ok]
  · intro h200
    rw [hres]
    simp [HttpResponse.ok, h200]
  · intro h404
    rw [hres]
    simp [HttpResponse.ok, h404]
  · intro hok np2 h2
    simp [deleteFolderOp, h2, hok]

/-- C7 witness: `delete` against a stubbed 200 response returns `true` and
against a stubbed 404 returns `false`, with no thrown error. -/
theorem C7_witness :
    normalizePath "z" "z/f" false = .ok "z/f" ∧
    (deleteOp "z" "k" "b" "z/f" ⟨404, []⟩).result = .ok false ∧
    (deleteOp "z" "k" "b" "z/f" ⟨200, []⟩).result = .ok true := by
  refine ⟨by decide, ?_, ?_⟩
  · exact (C7_delete_boolean "z" "k" "b" "z/f" "z/f" ⟨404, []⟩
      (by decide)).2.2.2.1 rfl
  · exact (C7_delete_boolean "z" "k" "b" "z/f" "z/f" ⟨200, []⟩
      (by decide)).2.2.1 rfl

/-! ## Support lemmas for the checksum pipeline -/

theorem foldl_compressStep_length (l : List (Nat × Nat)) (st : List Nat)
    (h : st.length = 8) : (l.foldl compressStep st).length = 8 := by
  induction l generalizing st with
  | nil => exact h
  | cons a tl ih =>
    rw [List.foldl_cons]
    exact ih _ (by simp [compressStep])

theorem compressChunk_length (h : List Nat) (c : List Nat)
    (hh : h.length = 8) : (compressChunk h c).length = 8 := by
  simp only [compressChunk, List.length_map, List.length_zip, hh,
    foldl_compressStep_length _ _ hh, Nat.min_self]

theorem sha256_state_length (msg : List Nat) :
    ((toChunks (padMessage msg)).foldl compressChunk sha256H0).length = 8 := by
  have hgen : ∀ (cs : List (List Nat)) (st : List Nat), st.length = 8 →
      (cs.foldl compressChunk st).length = 8 := by
    intro cs
    induction cs with
    | nil => intro st h; exact h
    | cons a tl ih =>
      intro st h
      rw [List.foldl_cons]
      exact ih _ (compressChunk_length _ _ h)
  exact hgen _ _ (by decide)

theorem sha256_ne_nil (msg : List Nat) : sha256 msg ≠ [] := by
  unfold sha256
  have h8 := sha256_state_length msg
  cases hst : (toChunks (padMessage msg)).foldl compressChunk sha256H0 with
  | nil =>
    rw [hst] at h8
    simp at h8
  | cons s0 tl =>
    simp [wordBytes]

theorem generate_ne_empty (bytes : List Nat) : Checksum.generate bytes ≠ "" := by
  unfold Checksum.generate bytesToHex
  intro h
  have hd : ((sha256 bytes).map byteToHex).flatten = [] := by
    have := congrArg String.data h
    simpa using this
  cases hs : sha256 bytes with
  | nil => exact sha256_ne_nil bytes hs
  | cons b tl =>
    rw [hs] at hd
    simp [byteToHex] at hd

theorem generate_mem_hexChars (bytes : List Nat) :
    ∀ c ∈ (Checksum.generate bytes).data, c ∈ hexChars := by
  intro c hc
  have hc' : c ∈ ((sha256 bytes).map byteToHex).flatten := by
    simpa [Checksum.generate, bytesToHex] using hc
  obtain ⟨piece, hpiece, hcp⟩ := List.mem_flatten.mp hc'
  obtain ⟨b, _, hb⟩ := List.mem_map.mp hpiece
  rw [← hb] at hcp
  have h16 : hexChars.length = 16 := by decide
  have hlt1 : b / 16 % 16 < hexChars.length := by
    rw [h16]
    exact Nat.mod_lt _ (by decide)
  have hlt2 : b % 16 < hexChars.length := by
    rw [h16]
    exact Nat.mod_lt _ (by decide)
  rcases (by simpa [byteToHex] using hcp :
      c = hexChars.getD (b / 16 % 16) 'x' ∨ c = hexChars.getD (b % 16) 'x')
    with h | h
  · rw [h, List.getD_eq_getElem _ _ hlt1]
    exact List.getElem_mem _
  · rw [h, List.getD_eq_getElem _ _ hlt2]
    exact List.getElem_mem _

theorem checksumTruthy_generate (bytes : List Nat) :
    checksumTruthy (some (Checksum.generate bytes)) = true := by
  simp [checksumTruthy, generate_ne_empty bytes]

/-- Normal form of `upload` when verification is requested and the held
checksum is falsy: the payload is buffered, hashed, and re-sent with a
`Checksum` header. -/
theorem upload_validate_no_checksum (z key base : String)
    (fsRead : String → List Nat) (input : UploadInput) (sp ct np : String)
    (bytes : List Nat) (resp : HttpResponse) (ck : Option String)
    (h1 : normalizePath z sp false = .ok np)
    (h2 : resolveInput fsRead input = .ok bytes)
    (hck : checksumTruthy ck = false) :
    upload z key base fsRead input sp true ck ct resp =
      ⟨some bytes,
        some ⟨base ++ np, "PUT",
          ("AccessKey", key) :: ("Checksum", Checksum.generate bytes) ::
            (if ct = "" then [] else [("Override-Content-Type", ct)]),
          some bytes⟩,
        if resp.ok then .ok resp.body
        else .error (.http (uploadHttpError z resp.status true np))⟩ := by
  simp [upload, h1, h2, hck, checksumTruthy_generate bytes]

/-- Normal form of `upload` when verification is not requested and the
held checksum is falsy: nothing is buffered and no `Checksum` header is
sent. -/
theorem upload_no_validate (z key base : String)
    (fsRead : String → List Nat) (input : UploadInput) (sp ct np : String)
    (bytes : List Nat) (resp : HttpResponse) (ck : Option String)
    (h1 : normalizePath z sp false = .ok np)
    (h2 : resolveInput fsRead input = .ok bytes)
    (hck : checksumTruthy ck = false) :
    upload z key base fsRead input sp false ck ct resp =
      ⟨none,
        some ⟨base ++ np, "PUT",
          ("AccessKey", key) ::
            (if ct = "" then [] else [("Override-Content-Type", ct)]),
          some bytes⟩,
        if resp.ok then .ok resp.body
        else .error (.http (uploadHttpError z resp.status false np))⟩ := by
  simp [upload, h1, h2, hck]

/-! ## Claim C6: the auto-checksum upload pipeline -/

/-- C6: an upload with `validateChecksum = true` and no precomputed
checksum buffers the entire payload before the request, re-emits exactly
the original bytes as the request body, and carries a `Checksum` header
whose value is the lowercase hexadecimal SHA-256 digest of exactly those
bytes. -/
theorem C6_upload_checksum_pipeline (z key base : String)
    (fsRead : String → List Nat) (input : UploadInput) (sp ct np : String)
    (bytes : List Nat) (resp : HttpResponse)
    (h1 : normalizePath z sp false = .ok np)
    (h2 : resolveInput fsRead input = .ok bytes) :
    (upload z key base fsRead input sp true none ct resp).buffered =
      some bytes ∧
    (∃ r, (upload z key base fsRead input sp true none ct resp).request =
        some r ∧ r.body = some bytes ∧
      ("Checksum", Checksum.generate bytes) ∈ r.headers) ∧
    Checksum.generate bytes = bytesToHex (sha256 bytes) ∧
    Checksum.generate bytes ≠ "" ∧
    (∀ c ∈ (Checksum.generate bytes).data, c ∈ hexChars) := by
  have hu := upload_validate_no_checksum z key base fsRead input sp ct np
    bytes resp none h1 h2 rfl
  refine ⟨by rw [hu], ?_, rfl, generate_ne_empty bytes,
    generate_mem_hexChars bytes⟩
  rw [hu]
  refine ⟨_, rfl, rfl, ?_⟩
  simp

/-- C6 witness: the pipeline theorem at the three-byte payload
`"abc"` (bytes 97, 98, 99) uploaded to `"z/f"`. -/
theorem C6_witness :
    normalizePath "z" "z/f" false = .ok "z/f" ∧
    resolveInput (fun _ => []) (.byteStream [97, 98, 99]) =
      .ok [97, 98, 99] ∧
    (upload "z" "k" "b" (fun _ => []) (.byteStream [97, 98, 99]) "z/f" true
      none "" ⟨201, []⟩).buffered = some [97, 98, 99] :=
  ⟨by decide, rfl,
    (C6_upload_checksum_pipeline "z" "k" "b" (fun _ => [])
      (.byteStream [97, 98, 99]) "z/f" "" "z/f" [97, 98, 99] ⟨201, []⟩
      (by decide) rfl).1⟩

/-! ## Claim C9: invalid upload inputs -/

/-- C9 (counterexample): calling `upload` with a `null`/`undefined` input
and a valid storage path fails with the runtime type error raised by the
`.pipe` property access, not with the invalid-input error, so not every
non-string non-stream input produces the invalid-input error. -/
theorem C9_counterexample :
    (upload "z" "k" "b" (fun _ => []) .nullish "z/f" false none ""
      ⟨200, []⟩).result ≠ .error .invalidInput ∧
    (upload "z" "k" "b" (fun _ => []) .nullish "z/f" false none ""
      ⟨200, []⟩).result = .error .typeError :=
  ⟨by decide, by decide⟩

/-- C9 (amended): an upload input that is neither a string nor a stream
fails before any buffering or HTTP request: when the storage path
normalizes, `null`/`undefined` raise the type error from the `.pipe`
access and every other such value raises the invalid-input error; when
normalization fails, the path-validation error is raised first — likewise
before any buffering or request. -/
theorem C9_upload_invalid_input_amended (z key base : String)
    (fsRead : String → List Nat) (sp ct : String) (v : Bool)
    (ck : Option String) (resp : HttpResponse) (input : UploadInput)
    (hin : input = .nullish ∨ input = .invalidValue) :
    (upload z key base fsRead input sp v ck ct resp).buffered = none ∧
    (upload z key base fsRead input sp v ck ct resp).request = none ∧
    (∀ np, normalizePath z sp false = .ok np →
      (upload z key base fsRead input sp v ck ct resp).result =
        .error (if input = .nullish then .typeError else .invalidInput)) ∧
    (∀ e, normalizePath z sp false = .error e →
      (upload z key base fsRead input sp v ck ct resp).result =
        .error (.pathValidation e)) := by
  cases hn : normalizePath z sp false with
  | error e0 =>
    have hbase : upload z key base fsRead input sp v ck ct resp =
        ⟨none, none, .error (.pathValidation e0)⟩ := by
      simp [upload, hn]
    refine ⟨by rw [hbase], by rw [hbase], ?_, ?_⟩
    · intro np hnp
      simp at hnp
    · intro e he
      injection he with he'
      rw [hbase, he']
  | ok np0 =>
    rcases hin with h | h <;> subst h
    · have hbase : upload z key base fsRead .nullish sp v ck ct resp =
          ⟨none, none, .error .typeError⟩ := by
        simp [upload, hn, resolveInput]
      refine ⟨by rw [hbase], by rw [hbase], ?_, ?_⟩
      · intro np hnp
        rw [hbase]
        simp
      · intro e he
        simp at he
    · have hbase : upload z key base fsRead .invalidValue sp v ck ct resp =
          ⟨none, none, .error .invalidInput⟩ := by
        simp [upload, hn, resolveInput]
      refine ⟨by rw [hbase], by rw [hbase], ?_, ?_⟩
      · intro np hnp
        rw [hbase]
        simp
      · intro e he
        simp at he

/-- C9 witness: the amended theorem at a `null` input with the valid path
`"z/f"`: no buffering, no request, and the type error. -/
theorem C9_witness :
    (UploadInput.nullish = UploadInput.nullish ∨
      UploadInput.nullish = UploadInput.invalidValue) ∧
    normalizePath "z" "z/f" false = .ok "z/f" ∧
    (upload "z" "k" "b" (fun _ => []) .nullish "z/f" true none ""
      ⟨200, []⟩).buffered = none ∧
    (upload "z" "k" "b" (fun _ => []) .nullish "z/f" true none ""
      ⟨200, []⟩).request = none ∧
    (upload "z" "k" "b" (fun _ => []) .nullish "z/f" true none ""
      ⟨200, []⟩).result = .error .typeError := by
  have hth := C9_upload_invalid_input_amended "z" "k" "b" (fun _ => [])
    "z/f" "" true none ⟨200, []⟩ .nullish (Or.inl rfl)
  refine ⟨Or.inl rfl, by decide, hth.1, hth.2.1, ?_⟩
  have := hth.2.2.1 "z/f" (by decide)
  simpa using this

/-! ## Claim C10: empty-string checksum equals null checksum -/

/-- C10: `upload` treats an empty-string `sha256Checksum` exactly like a
`null` one: the traces are equal for all arguments; moreover with
`validateChecksum` false no `Checksum` header is sent and a 400 maps to
the generic invalid-path error, while with `validateChecksum` true the
digest is computed and sent just as if no checksum had been supplied. -/
theorem C10_empty_checksum_like_null (z key base : String)
    (fsRead : String → List Nat) (input : UploadInput) (sp ct : String)
    (v : Bool) (resp : HttpResponse) :
    upload z key base fsRead input sp v (some "") ct resp =
      upload z key base fsRead input sp v none ct resp ∧
    (∀ np bytes, normalizePath z sp false = .ok np →
      resolveInput fsRead input = .ok bytes →
      ((∃ r, (upload z key base fsRead input sp false (some "") ct
          resp).request = some r ∧ ∀ x, ("Checksum", x) ∉ r.headers) ∧
       (resp.status = 400 →
         (upload z key base fsRead input sp false (some "") ct resp).result =
           .error (.http (mapResponseToException z 400 np))) ∧
       (∃ r, (upload z key base fsRead input sp true (some "") ct
          resp).request = some r ∧
         ("Checksum", Checksum.generate bytes) ∈ r.headers))) := by
  constructor
  · cases v <;> rfl
  · intro np bytes hnp hri
    have hu0 := upload_no_validate z key base fsRead input sp ct np bytes
      resp (some "") hnp hri rfl
    have hu1 := upload_validate_no_checksum z key base fsRead input sp ct np
      bytes resp (some "") hnp hri rfl
    refine ⟨?_, ?_, ?_⟩
    · rw [hu0]
      refine ⟨_, rfl, ?_⟩
      intro x hx
      rcases List.mem_cons.mp hx with hx1 | hx2
      · have hfst := congrArg Prod.fst hx1
        simp at hfst
      · by_cases hct : ct = ""
        · rw [if_pos hct] at hx2
          simp at hx2
        · rw [if_neg hct] at hx2
          have hfst := congrArg Prod.fst (List.mem_singleton.mp hx2)
          simp at hfst
    · intro h400
      rw [hu0]
      have hok : resp.ok = false := by
        simp [HttpResponse.ok, h400]
      rw [hok]
      simp [uploadHttpError, h400]
    · rw [hu1]
      refine ⟨_, rfl, ?_⟩
      simp

/-- C10 witness: the equal-traces law and the no-header law at a concrete
call with `validateChecksum = false` and checksum `""`. -/
theorem C10_witness :
    upload "z" "k" "b" (fun _ => []) (.byteStream [5]) "z/f" false (some "")
      "" ⟨400, []⟩ =
      upload "z" "k" "b" (fun _ => []) (.byteStream [5]) "z/f" false none
        "" ⟨400, []⟩ ∧
    normalizePath "z" "z/f" false = .ok "z/f" ∧
    resolveInput (fun _ => []) (.byteStream [5]) = .ok [5] ∧
    (upload "z" "k" "b" (fun _ => []) (.byteStream [5]) "z/f" false (some "")
      "" ⟨400, []⟩).result =
      .error (.http (mapResponseToException "z" 400 "z/f")) := by
  have hth := C10_empty_checksum_like_null "z" "k" "b" (fun _ => [])
    (.byteStream [5]) "z/f" "" false ⟨400, []⟩
  refine ⟨hth.1, by decide, rfl, ?_⟩
  exact (hth.2 "z/f" [5] (by decide) rfl).2.1 rfl

end BunnyCDN
